import Mathlib

/-
Verification of the FbxToLwo mesh-export core against its specification.

The development is a shallow embedding of the C++ sources:
  * math/Matrix4.h, math/Matrix4.cpp  -> Matrix4 and its operations
  * FbxSurface.h                      -> FbxSurface.addVertex (dedup index)
  * ModelExporterBase.h               -> ExporterState, addSurface
  * FbxToLwo.cpp (ExportFbxMesh loop) -> addSurfaces
  * ExportStream.h                    -> ExportStream.close over an abstract
                                         filesystem with injectable failures

The C++ `double` scalars are embedded as exact rationals, so every algebraic
statement is over exact arithmetic.  Fallible code returns an error value
alongside the mutated state, matching the C++ exception semantics (a throw
leaves the already performed mutations in place).
-/

/-- Two-component vector (texture coordinates), exact-arithmetic stand-in for
the C++ double pair. -/
structure Vec2 where
  x : ℚ
  y : ℚ
deriving DecidableEq, Repr

/-- Three-component vector, exact-arithmetic stand-in for BasicVector3<double>. -/
structure Vec3 where
  x : ℚ
  y : ℚ
  z : ℚ
deriving DecidableEq, Repr

/-- Modelled from the spec: Vector3.h is not among the sources; the squared
length of a vector is the sum of the squares of its components. -/
def Vec3.getLengthSquared (v : Vec3) : ℚ :=
  v.x * v.x + v.y * v.y + v.z * v.z

/-- Modelled from the spec: Vector3.h is not among the sources.  Exact square
root on the rationals: returns the exact root when the argument is the square
of a rational (the only case any claim exercises) and 0 otherwise. -/
def ratSqrt (q : ℚ) : ℚ :=
  if (Nat.sqrt q.num.toNat : ℤ) ^ 2 = q.num ∧ (Nat.sqrt q.den : ℕ) ^ 2 = q.den then
    (Nat.sqrt q.num.toNat : ℚ) / (Nat.sqrt q.den : ℚ)
  else 0

/-- Modelled from the spec: Vector3.h is not among the sources.  The spec (§3,
§4.3) requires normals to be re-normalized to unit length, i.e. divided by the
vector's length. -/
def Vec3.getNormalised (v : Vec3) : Vec3 :=
  let len := ratSqrt v.getLengthSquared
  ⟨v.x / len, v.y / len, v.z / len⟩

/-- A 4x4 matrix of exact rationals.  Fields are named after the column-wise
element accessors of the C++ Matrix4 (column vectors x, y, z, t; `xy` is the
y-row entry of the x-column, i.e. _m[1]). -/
structure Matrix4 where
  xx : ℚ
  xy : ℚ
  xz : ℚ
  xw : ℚ
  yx : ℚ
  yy : ℚ
  yz : ℚ
  yw : ℚ
  zx : ℚ
  zy : ℚ
  zz : ℚ
  zw : ℚ
  tx : ℚ
  ty : ℚ
  tz : ℚ
  tw : ℚ
deriving DecidableEq, Repr

/-- Matrix4::byColumns: construct from elements in column-major order,
matching the private C++ constructor. -/
def Matrix4.byColumns (xx xy xz xw yx yy yz yw zx zy zz zw tx ty tz tw : ℚ) : Matrix4 :=
  ⟨xx, xy, xz, xw, yx, yy, yz, yw, zx, zy, zz, zw, tx, ty, tz, tw⟩

/-- Matrix4::getIdentity. -/
def Matrix4.getIdentity : Matrix4 :=
  ⟨1, 0, 0, 0, 0, 1, 0, 0, 0, 0, 1, 0, 0, 0, 0, 1⟩

/-- Matrix4::getTranslation. -/
def Matrix4.getTranslation (translation : Vec3) : Matrix4 :=
  Matrix4.byColumns
    1 0 0 0
    0 1 0 0
    0 0 1 0
    translation.x translation.y translation.z 1

/-- Matrix4::getScale. -/
def Matrix4.getScale (scale : Vec3) : Matrix4 :=
  Matrix4.byColumns
    scale.x 0 0 0
    0 scale.y 0 0
    0 0 scale.z 0
    0 0 0 1

/-- Matrix4::getTransposed. -/
def Matrix4.getTransposed (m : Matrix4) : Matrix4 :=
  ⟨m.xx, m.yx, m.zx, m.tx,
   m.xy, m.yy, m.zy, m.ty,
   m.xz, m.yz, m.zz, m.tz,
   m.xw, m.yw, m.zw, m.tw⟩

/-- Matrix4::getMultipliedBy (post-multiplication `this * other`), transcribed
from the inline definition in Matrix4.h with _m indices replaced by the named
column-wise fields. -/
def Matrix4.getMultipliedBy (m other : Matrix4) : Matrix4 :=
  Matrix4.byColumns
    (other.xx * m.xx + other.xy * m.yx + other.xz * m.zx + other.xw * m.tx)
    (other.xx * m.xy + other.xy * m.yy + other.xz * m.zy + other.xw * m.ty)
    (other.xx * m.xz + other.xy * m.yz + other.xz * m.zz + other.xw * m.tz)
    (other.xx * m.xw + other.xy * m.yw + other.xz * m.zw + other.xw * m.tw)
    (other.yx * m.xx + other.yy * m.yx + other.yz * m.zx + other.yw * m.tx)
    (other.yx * m.xy + other.yy * m.yy + other.yz * m.zy + other.yw * m.ty)
    (other.yx * m.xz + other.yy * m.yz + other.yz * m.zz + other.yw * m.tz)
    (other.yx * m.xw + other.yy * m.yw + other.yz * m.zw + other.yw * m.tw)
    (other.zx * m.xx + other.zy * m.yx + other.zz * m.zx + other.zw * m.tx)
    (other.zx * m.xy + other.zy * m.yy + other.zz * m.zy + other.zw * m.ty)
    (other.zx * m.xz + other.zy * m.yz + other.zz * m.zz + other.zw * m.tz)
    (other.zx * m.xw + other.zy * m.yw + other.zz * m.zw + other.zw * m.tw)
    (other.tx * m.xx + other.ty * m.yx + other.tz * m.zx + other.tw * m.tx)
    (other.tx * m.xy + other.ty * m.yy + other.tz * m.zy + other.tw * m.ty)
    (other.tx * m.xz + other.ty * m.yz + other.tz * m.zz + other.tw * m.tz)
    (other.tx * m.xw + other.ty * m.yw + other.tz * m.zw + other.tw * m.tw)

/-- Matrix4::getPremultipliedBy. -/
def Matrix4.getPremultipliedBy (m other : Matrix4) : Matrix4 :=
  other.getMultipliedBy m

/-- Matrix4::transformPoint: the point receives an implicit w component of 1
and the w row of the output is dropped. -/
def Matrix4.transformPoint (m : Matrix4) (point : Vec3) : Vec3 :=
  ⟨m.xx * point.x + m.yx * point.y + m.zx * point.z + m.tx,
   m.xy * point.x + m.yy * point.y + m.zy * point.z + m.ty,
   m.xz * point.x + m.yz * point.y + m.zz * point.z + m.tz⟩

/-- Matrix4::transformDirection: implicit w component of 0, no translation. -/
def Matrix4.transformDirection (m : Matrix4) (direction : Vec3) : Vec3 :=
  ⟨m.xx * direction.x + m.yx * direction.y + m.zx * direction.z,
   m.xy * direction.x + m.yy * direction.y + m.zy * direction.z,
   m.xz * direction.x + m.yz * direction.y + m.zz * direction.z⟩

/-- Determinant of the upper-left 3x3 (rotation) submatrix, exactly the
expression computed at the start of Matrix4::getInverse. -/
def Matrix4.det3 (m : Matrix4) : ℚ :=
  m.xx * (m.yy * m.zz - m.zy * m.yz)
    - m.xy * (m.yx * m.zz - m.zx * m.yz)
    + m.xz * (m.yx * m.zy - m.zx * m.yy)

/-- Matrix4::getInverse: the affine inverse from Matrix4.cpp.  The 3x3 block
is inverted by the cofactor method and the translation is the negated product
of the old translation with the inverted block; the w row is set to
(0, 0, 0, 1). -/
def Matrix4.getInverse (m : Matrix4) : Matrix4 :=
  let det := 1 / m.det3
  let r0 := (m.yy * m.zz - m.yz * m.zy) * det
  let r1 := -(m.xy * m.zz - m.xz * m.zy) * det
  let r2 := (m.xy * m.yz - m.xz * m.yy) * det
  let r4 := -(m.yx * m.zz - m.yz * m.zx) * det
  let r5 := (m.xx * m.zz - m.xz * m.zx) * det
  let r6 := -(m.xx * m.yz - m.xz * m.yx) * det
  let r8 := (m.yx * m.zy - m.yy * m.zx) * det
  let r9 := -(m.xx * m.zy - m.xy * m.zx) * det
  let r10 := (m.xx * m.yy - m.xy * m.yx) * det
  ⟨r0, r1, r2, 0,
   r4, r5, r6, 0,
   r8, r9, r10, 0,
   -(m.tx * r0 + m.ty * r4 + m.tz * r8),
   -(m.tx * r1 + m.ty * r5 + m.tz * r9),
   -(m.tx * r2 + m.ty * r6 + m.tz * r10),
   1⟩

/-- Matrix4::getFullInverse: the general inverse via the 4x4 adjugate and
determinant, transcribed minor by minor from Matrix4.cpp. -/
def Matrix4.getFullInverse (m : Matrix4) : Matrix4 :=
  let minor01 := m.zz * m.tw - m.zw * m.tz
  let minor02 := m.zy * m.tw - m.zw * m.ty
  let minor03 := m.zx * m.tw - m.zw * m.tx
  let minor04 := m.zy * m.tz - m.zz * m.ty
  let minor05 := m.zx * m.tz - m.zz * m.tx
  let minor06 := m.zx * m.ty - m.zy * m.tx
  let minor07 := m.yz * m.tw - m.yw * m.tz
  let minor08 := m.yy * m.tw - m.yw * m.ty
  let minor09 := m.yy * m.tz - m.yz * m.ty
  let minor10 := m.yx * m.tw - m.yw * m.tx
  let minor11 := m.yx * m.tz - m.yz * m.tx
  let minor12 := m.yx * m.ty - m.yy * m.tx
  let minor13 := m.yz * m.zw - m.yw * m.zz
  let minor14 := m.yy * m.zw - m.yw * m.zy
  let minor15 := m.yy * m.zz - m.yz * m.zy
  let minor16 := m.yx * m.zw - m.yw * m.zx
  let minor17 := m.yx * m.zz - m.yz * m.zx
  let minor18 := m.yx * m.zy - m.yy * m.zx
  let minor3x3_11 := m.yy * minor01 - m.yz * minor02 + m.yw * minor04
  let minor3x3_21 := m.yx * minor01 - m.yz * minor03 + m.yw * minor05
  let minor3x3_31 := m.yx * minor02 - m.yy * minor03 + m.yw * minor06
  let minor3x3_41 := m.yx * minor04 - m.yy * minor05 + m.yz * minor06
  let minor3x3_12 := m.xy * minor01 - m.xz * minor02 + m.xw * minor04
  let minor3x3_22 := m.xx * minor01 - m.xz * minor03 + m.xw * minor05
  let minor3x3_32 := m.xx * minor02 - m.xy * minor03 + m.xw * minor06
  let minor3x3_42 := m.xx * minor04 - m.xy * minor05 + m.xz * minor06
  let minor3x3_13 := m.xy * minor07 - m.xz * minor08 + m.xw * minor09
  let minor3x3_23 := m.xx * minor07 - m.xz * minor10 + m.xw * minor11
  let minor3x3_33 := m.xx * minor08 - m.xy * minor10 + m.xw * minor12
  let minor3x3_43 := m.xx * minor09 - m.xy * minor11 + m.xz * minor12
  let minor3x3_14 := m.xy * minor13 - m.xz * minor14 + m.xw * minor15
  let minor3x3_24 := m.xx * minor13 - m.xz * minor16 + m.xw * minor17
  let minor3x3_34 := m.xx * minor14 - m.xy * minor16 + m.xw * minor18
  let minor3x3_44 := m.xx * minor15 - m.xy * minor17 + m.xz * minor18
  let determinant := m.xx * minor3x3_11 - m.xy * minor3x3_21 + m.xz * minor3x3_31 - m.xw * minor3x3_41
  let invDet := 1 / determinant
  Matrix4.byColumns
    (minor3x3_11 * invDet) (-minor3x3_12 * invDet) (minor3x3_13 * invDet) (-minor3x3_14 * invDet)
    (-minor3x3_21 * invDet) (minor3x3_22 * invDet) (-minor3x3_23 * invDet) (minor3x3_24 * invDet)
    (minor3x3_31 * invDet) (-minor3x3_32 * invDet) (minor3x3_33 * invDet) (-minor3x3_34 * invDet)
    (-minor3x3_41 * invDet) (minor3x3_42 * invDet) (-minor3x3_43 * invDet) (minor3x3_44 * invDet)

attribute [ext] Vec2 Vec3 Matrix4

/-- Mesh vertex record.  ArbitraryMeshVertex.h is not among the sources; the
four attribute fields and their order are those used by ConstructMeshVertex in
FbxToLwo.cpp and by the emplace_back in ModelExporterBase::addSurface, and
match the spec's Vertex (§3). -/
structure ArbitraryMeshVertex where
  vertex : Vec3
  normal : Vec3
  texcoord : Vec2
  colour : Vec3
deriving DecidableEq, Repr

/-- Lookup in the vertex hash index of FbxSurface (the unordered_map keyed by
the full vertex).  VertexHashing.h is not among the sources; per the spec (§3,
§4.2) two vertices are identical iff all four fields compare equal
component-wise, which is the derived equality on the exact-rational fields. -/
def findVertexIndex (m : List (ArbitraryMeshVertex × ℕ)) (vertex : ArbitraryMeshVertex) :
    Option ℕ :=
  match m with
  | [] => none
  | (k, i) :: rest => if k = vertex then some i else findVertexIndex rest vertex

/-- FbxSurface: the per-material surface filled by the FBX reader, with the
dedup index vertexIndices mapping each distinct vertex to its index. -/
structure FbxSurface where
  indices : List ℕ
  vertices : List ArbitraryMeshVertex
  material : String
  vertexIndices : List (ArbitraryMeshVertex × ℕ)
deriving DecidableEq, Repr

/-- FbxSurface::getVertexArray. -/
def FbxSurface.getVertexArray (s : FbxSurface) : List ArbitraryMeshVertex :=
  s.vertices

/-- FbxSurface::getIndexArray. -/
def FbxSurface.getIndexArray (s : FbxSurface) : List ℕ :=
  s.indices

/-- FbxSurface::getActiveMaterial. -/
def FbxSurface.getActiveMaterial (s : FbxSurface) : String :=
  s.material

/-- A freshly constructed FbxSurface holding the given material name. -/
def FbxSurface.emptySurface (material : String) : FbxSurface :=
  ⟨[], [], material, []⟩

/-- FbxSurface::addVertex: try_emplace the vertex with value vertices.size();
if it was new, append it to the vertex array; in both cases append the index
stored in the map to the index buffer. -/
def FbxSurface.addVertex (s : FbxSurface) (vertex : ArbitraryMeshVertex) : FbxSurface :=
  match findVertexIndex s.vertexIndices vertex with
  | some i => { s with indices := s.indices ++ [i] }
  | none =>
      { s with
        vertexIndices := s.vertexIndices ++ [(vertex, s.vertices.length)],
        vertices := s.vertices ++ [vertex],
        indices := s.indices ++ [s.vertices.length] }

/-- ModelExporterBase::Surface: one aggregated output surface. -/
structure Surface where
  materialName : String
  vertices : List ArbitraryMeshVertex
  indices : List ℕ
deriving DecidableEq, Repr

/-- Lookup of _surfaces.find(materialName).  The C++ std::map is embedded as
an association list; the claims only use its lookup/insert semantics, and the
spec (§3) declares material iteration order semantically insignificant. -/
def findSurface (surfaces : List (String × Surface)) (materialName : String) :
    Option Surface :=
  match surfaces with
  | [] => none
  | (k, s) :: rest => if k = materialName then some s else findSurface rest materialName

/-- ModelExporterBase::ensureSurface: return the map unchanged when the
material already has an entry, otherwise insert a fresh empty Surface carrying
the material name. -/
def ensureSurface (surfaces : List (String × Surface)) (materialName : String) :
    List (String × Surface) :=
  match findSurface surfaces materialName with
  | some _ => surfaces
  | none => surfaces ++ [(materialName, ⟨materialName, [], []⟩)]

/-- Write back the mutated Surface under its key (the C++ code mutates the
mapped value through the reference returned by ensureSurface). -/
def updateSurface (surfaces : List (String × Surface)) (materialName : String)
    (newSurface : Surface) : List (String × Surface) :=
  match surfaces with
  | [] => []
  | (k, s) :: rest =>
      if k = materialName then (k, newSurface) :: rest
      else (k, s) :: updateSurface rest materialName newSurface

/-- The per-vertex work of ModelExporterBase::addSurface: position through
localToWorld.transformPoint, normal through the inverse transpose followed by
getNormalised, texcoord and colour copied unchanged (tangent and bitangent are
discarded by the exporter). -/
def transformVertex (localToWorld invTranspTransform : Matrix4)
    (meshVertex : ArbitraryMeshVertex) : ArbitraryMeshVertex :=
  { vertex := localToWorld.transformPoint meshVertex.vertex,
    normal := (invTranspTransform.transformPoint meshVertex.normal).getNormalised,
    texcoord := meshVertex.texcoord,
    colour := meshVertex.colour }

/-- The index loop of ModelExporterBase::addSurface: while i < size - 2, push
indices[i+2], indices[i+1], indices[i], each offset by indexStart, and advance
i by 3 (reversing each clockwise source triangle to counter-clockwise).  The
loop consumes the index list three entries at a time and stops as soon as
fewer than three remain, which is the chunked recursion below. -/
def emitReversed (indices : List ℕ) (indexStart : ℕ) : List ℕ :=
  match indices with
  | i0 :: i1 :: i2 :: rest =>
      (i2 + indexStart) :: (i1 + indexStart) :: (i0 + indexStart) ::
        emitReversed rest indexStart
  | _ => []

/-- The surface the C++ reference returned by ensureSurface points at: the
entry found under the material name (ensureSurface guarantees one exists, so
the default empty surface is never actually taken). -/
def surfaceFor (surfaces : List (String × Surface)) (materialName : String) : Surface :=
  (findSurface surfaces materialName).getD ⟨materialName, [], []⟩

/-- The surface map of a ModelExporterBase instance. -/
structure ExporterState where
  surfaces : List (String × Surface)
deriving DecidableEq, Repr

/-- ModelExporterBase::addSurface.  The returned Option String is the thrown
runtime_error: a throw leaves the surface map as mutated so far (the entry
created by ensureSurface stays). -/
def addSurface (st : ExporterState) (incoming : FbxSurface) (localToWorld : Matrix4) :
    ExporterState × Option String :=
  let ss := ensureSurface st.surfaces incoming.getActiveMaterial
  let invTranspTransform := localToWorld.getFullInverse.getTransposed
  let surface := surfaceFor ss incoming.getActiveMaterial
  let indexStart := surface.vertices.length
  if incoming.getIndexArray.length < 3 then
    (⟨ss⟩, some "Rejecting model surface with less than 3 indices.")
  else
    let newVertices := surface.vertices ++
      incoming.getVertexArray.map (transformVertex localToWorld invTranspTransform)
    let newIndices := surface.indices ++ emitReversed incoming.getIndexArray indexStart
    (⟨updateSurface ss incoming.getActiveMaterial
        { surface with vertices := newVertices, indices := newIndices }⟩,
      none)

/-- The aggregation loop at the end of ExportFbxMesh (FbxToLwo.cpp): addSurface
is called for each per-material FbxSurface in order; a thrown error propagates
out of the loop, so the remaining surfaces are not processed. -/
def addSurfaces (st : ExporterState) (surfaces : List FbxSurface) (transform : Matrix4) :
    ExporterState × Option String :=
  match surfaces with
  | [] => (st, none)
  | s :: rest =>
    match addSurface st s transform with
    | (st1, none) => addSurfaces st1 rest transform
    | (st1, some e) => (st1, some e)

/-- Fold a sequence of addSurface calls (each call a per-material FbxSurface
with its localToWorld transform), keeping the mutated exporter state. -/
def runCalls (st : ExporterState) (calls : List (FbxSurface × Matrix4)) : ExporterState :=
  calls.foldl (fun s c => (addSurface s c.1 c.2).1) st

/-- Abstract filesystem: a mapping from paths to file contents, embedded as an
association list over path strings. -/
structure FS where
  files : List (String × String)
deriving DecidableEq, Repr

/-- Find the content stored under a path in the file list. -/
def fsFind (files : List (String × String)) (path : String) : Option String :=
  match files with
  | [] => none
  | (p, c) :: rest => if p = path then some c else fsFind rest path

/-- Content of the file at a path, if present. -/
def FS.lookup (fs : FS) (path : String) : Option String :=
  fsFind fs.files path

/-- std::filesystem::exists. -/
def FS.fileExists (fs : FS) (path : String) : Bool :=
  (fs.lookup path).isSome

/-- std::filesystem::remove: drop every entry at the path. -/
def FS.remove (fs : FS) (path : String) : FS :=
  ⟨fs.files.filter (fun p => p.1 ≠ path)⟩

/-- std::filesystem::rename: move the content stored at fromPath (when
present) over to toPath, replacing anything there. -/
def FS.rename (fs : FS) (fromPath toPath : String) : FS :=
  match fs.lookup fromPath with
  | none => fs
  | some c => ⟨((fs.remove fromPath).remove toPath).files ++ [(toPath, c)]⟩

/-- The identity of a stream::ExportStream: the output directory and the
target filename given at construction. -/
structure ExportStream where
  outputDirectory : String
  filename : String
deriving DecidableEq, Repr

/-- The temporary sibling file opened by the constructor: the target filename
with a leading underscore, inside the output directory. -/
def ExportStream.tempFile (s : ExportStream) : String :=
  s.outputDirectory ++ "/_" ++ s.filename

/-- The full OS path to the output file, as recomputed in close(). -/
def ExportStream.targetPath (s : ExportStream) : String :=
  s.outputDirectory ++ "/" ++ s.filename

/-- Outcome of ExportStream::close(): either the commit went through, or a
runtime_error was thrown; either way the filesystem is left in the carried
state. -/
inductive CloseResult where
  | committed (fs : FS)
  | ioError (message : String) (fs : FS)
deriving DecidableEq, Repr

/-- stream::ExportStream::close().  The temporary stream is closed first (its
content is already in the filesystem map, so that step does not change the
map); then, when a file exists at the target path, it is removed, a failure
of that removal being rethrown as a runtime_error; finally the temporary file
is renamed onto the target path, a rename failure again being rethrown.  The
two Booleans inject the environmental failures of the two filesystem calls
(the spec's simulated faults). -/
def ExportStream.close (s : ExportStream) (fs : FS) (removeFails renameFails : Bool) :
    CloseResult :=
  let removeStep : Except String FS :=
    if fs.fileExists s.targetPath then
      if removeFails then
        .error ("Could not remove the existing file " ++ s.targetPath)
      else .ok (fs.remove s.targetPath)
    else .ok fs
  match removeStep with
  | .error e => .ioError e fs
  | .ok fs1 =>
      if renameFails then
        .ioError ("Could not rename the temporary file: " ++ s.tempFile) fs1
      else .committed (fs1.rename s.tempFile s.targetPath)

/-- Three pairwise distinct mesh vertices used as concrete inputs. -/
def vA : ArbitraryMeshVertex :=
  ⟨⟨0, 0, 0⟩, ⟨1, 0, 0⟩, ⟨0, 0⟩, ⟨1, 1, 1⟩⟩

/-- Second concrete vertex. -/
def vB : ArbitraryMeshVertex :=
  ⟨⟨1, 0, 0⟩, ⟨1, 0, 0⟩, ⟨0, 0⟩, ⟨1, 1, 1⟩⟩

/-- Third concrete vertex. -/
def vC : ArbitraryMeshVertex :=
  ⟨⟨0, 1, 0⟩, ⟨1, 0, 0⟩, ⟨0, 0⟩, ⟨1, 1, 1⟩⟩

/-- A well-formed single-triangle FbxSurface over the given material, as
FbxSurface.addVertex would have built it from the three distinct corners. -/
def triangleSurface (material : String) : FbxSurface :=
  ⟨[0, 1, 2], [vA, vB, vC], material, [(vA, 0), (vB, 1), (vC, 2)]⟩

/-- An FbxSurface whose index list is empty (fewer than 3 indices). -/
def degenerateSurface (material : String) : FbxSurface :=
  ⟨[], [], material, []⟩

/-- Claim C9 counterexample: with A the translation by (1,0,0), B the identity
except for a 1 in the w row of the x column (a non-affine matrix), and
p = (1,0,0), composing then transforming gives (3,0,0) while transforming
twice gives (2,0,0): transformPoint re-homogenises with w = 1, so the
composition law fails for matrices with a non-trivial w row. -/
theorem c9_composition_fails_for_nonaffine :
    ¬ (((Matrix4.getTranslation ⟨1, 0, 0⟩).getMultipliedBy
          (Matrix4.byColumns 1 0 0 1 0 1 0 0 0 0 1 0 0 0 0 1)).transformPoint ⟨1, 0, 0⟩ =
        (Matrix4.getTranslation ⟨1, 0, 0⟩).transformPoint
          ((Matrix4.byColumns 1 0 0 1 0 1 0 0 0 0 1 0 0 0 0 1).transformPoint ⟨1, 0, 0⟩)) := by
  norm_num [Matrix4.getTranslation, Matrix4.byColumns, Matrix4.getMultipliedBy,
    Matrix4.transformPoint, Vec3.mk.injEq]

/-- Claim C9 (amended): getMultipliedBy is associative for all matrices
unconditionally, and applying A.getMultipliedBy(B) to a point equals applying
B then A provided B is affine (w row (0,0,0,1)); for non-affine B the
composition law fails because transformPoint drops the w output and
re-homogenises with w = 1. -/
theorem getMultipliedBy_assoc_and_composes (A B C : Matrix4) (p : Vec3) :
    (A.getMultipliedBy B).getMultipliedBy C = A.getMultipliedBy (B.getMultipliedBy C)
    ∧ (B.xw = 0 → B.yw = 0 → B.zw = 0 → B.tw = 1 →
        (A.getMultipliedBy B).transformPoint p = A.transformPoint (B.transformPoint p)) := by
  constructor
  · simp only [Matrix4.getMultipliedBy, Matrix4.byColumns]
    ext <;> ring
  · intro hxw hyw hzw htw
    simp only [Matrix4.getMultipliedBy, Matrix4.byColumns, Matrix4.transformPoint,
      hxw, hyw, hzw, htw]
    ext <;> ring

/-- Witness for the amended C9 theorem at concrete inputs, discharging the
affinity hypotheses of the composition conjunct. -/
theorem getMultipliedBy_assoc_and_composes_witness :
    (Matrix4.getScale ⟨2, 3, 4⟩).xw = 0 ∧
    ((Matrix4.getTranslation ⟨1, 2, 3⟩).getMultipliedBy
        ((Matrix4.getScale ⟨2, 3, 4⟩).getMultipliedBy Matrix4.getIdentity) =
      ((Matrix4.getTranslation ⟨1, 2, 3⟩).getMultipliedBy
          (Matrix4.getScale ⟨2, 3, 4⟩)).getMultipliedBy Matrix4.getIdentity
    ∧ ((Matrix4.getTranslation ⟨1, 2, 3⟩).getMultipliedBy
        (Matrix4.getScale ⟨2, 3, 4⟩)).transformPoint ⟨5, 6, 7⟩ =
      (Matrix4.getTranslation ⟨1, 2, 3⟩).transformPoint
        ((Matrix4.getScale ⟨2, 3, 4⟩).transformPoint ⟨5, 6, 7⟩)) :=
  ⟨rfl,
    (getMultipliedBy_assoc_and_composes (Matrix4.getTranslation ⟨1, 2, 3⟩)
      (Matrix4.getScale ⟨2, 3, 4⟩) Matrix4.getIdentity ⟨5, 6, 7⟩).1.symm,
    (getMultipliedBy_assoc_and_composes (Matrix4.getTranslation ⟨1, 2, 3⟩)
      (Matrix4.getScale ⟨2, 3, 4⟩) Matrix4.getIdentity ⟨5, 6, 7⟩).2
      rfl rfl rfl rfl⟩

/-- Claim C7: for an affine matrix T (w row (0,0,0,1)) whose upper-left 3x3
block has non-zero determinant, the affine inverse computed by the cofactor
method undoes transformPoint exactly:
T.getInverse.transformPoint (T.transformPoint p) = p. -/
theorem getInverse_roundTrip (T : Matrix4) (p : Vec3)
    (hxw : T.xw = 0) (hyw : T.yw = 0) (hzw : T.zw = 0) (htw : T.tw = 1)
    (hdet : T.det3 ≠ 0) :
    T.getInverse.transformPoint (T.transformPoint p) = p := by
  have hd : T.xx * (T.yy * T.zz - T.zy * T.yz)
      - T.xy * (T.yx * T.zz - T.zx * T.yz)
      + T.xz * (T.yx * T.zy - T.zx * T.yy) ≠ 0 := hdet
  simp only [Matrix4.getInverse, Matrix4.transformPoint, Matrix4.det3]
  ext <;> field_simp <;> ring

/-- Witness for C7: a concrete affine matrix with non-uniform scale, shear and
translation, round-tripping the point (5, -7, 11). -/
theorem getInverse_roundTrip_witness :
    (Matrix4.byColumns 2 0 1 0 1 3 0 0 0 1 4 0 5 6 7 1).xw = 0 ∧
    (Matrix4.byColumns 2 0 1 0 1 3 0 0 0 1 4 0 5 6 7 1).det3 ≠ 0 ∧
    (Matrix4.byColumns 2 0 1 0 1 3 0 0 0 1 4 0 5 6 7 1).getInverse.transformPoint
      ((Matrix4.byColumns 2 0 1 0 1 3 0 0 0 1 4 0 5 6 7 1).transformPoint ⟨5, -7, 11⟩) =
      ⟨5, -7, 11⟩ :=
  ⟨rfl, by norm_num [Matrix4.det3, Matrix4.byColumns],
    getInverse_roundTrip (Matrix4.byColumns 2 0 1 0 1 3 0 0 0 1 4 0 5 6 7 1) ⟨5, -7, 11⟩
      rfl rfl rfl rfl (by norm_num [Matrix4.det3, Matrix4.byColumns])⟩

/-- Appending a fresh entry makes it findable when the key was absent. -/
theorem findSurface_append_of_none (ss : List (String × Surface)) (name : String) (e : Surface)
    (h : findSurface ss name = none) : findSurface (ss ++ [(name, e)]) name = some e := by
  induction ss with
  | nil => simp [findSurface]
  | cons head rest ih =>
      obtain ⟨k, s⟩ := head
      simp only [findSurface, List.cons_append] at h ⊢
      by_cases hk : k = name
      · simp [hk] at h
      · simp only [hk, if_false]
        exact ih (by simpa [hk] using h)

/-- Appending an entry under a different key does not change a lookup. -/
theorem findSurface_append_ne (ss : List (String × Surface)) (name k : String) (e : Surface)
    (hk : k ≠ name) : findSurface (ss ++ [(name, e)]) k = findSurface ss k := by
  induction ss with
  | nil => simp [findSurface, Ne.symm hk]
  | cons head rest ih =>
      obtain ⟨k1, s⟩ := head
      simp only [findSurface, List.cons_append]
      by_cases h1 : k1 = k
      · simp [h1]
      · simp [h1, ih]

/-- After ensureSurface the material always has an entry: the pre-existing
surface when there was one, the fresh empty surface otherwise. -/
theorem findSurface_ensure_self (ss : List (String × Surface)) (name : String) :
    findSurface (ensureSurface ss name) name = some (surfaceFor ss name) := by
  unfold ensureSurface surfaceFor
  cases h : findSurface ss name with
  | some s => simp [h]
  | none => simp [h, findSurface_append_of_none ss name _ h]

/-- ensureSurface does not change lookups of other materials. -/
theorem findSurface_ensure_ne (ss : List (String × Surface)) (name k : String)
    (hk : k ≠ name) : findSurface (ensureSurface ss name) k = findSurface ss k := by
  unfold ensureSurface
  cases h : findSurface ss name with
  | some s => rfl
  | none => exact findSurface_append_ne ss name k _ hk

/-- Writing back a surface under an existing key makes it the found value. -/
theorem findSurface_update_self (ss : List (String × Surface)) (name : String)
    (newSurface : Surface) (h : (findSurface ss name).isSome) :
    findSurface (updateSurface ss name newSurface) name = some newSurface := by
  induction ss with
  | nil => simp [findSurface] at h
  | cons head rest ih =>
      obtain ⟨k, s⟩ := head
      simp only [findSurface, updateSurface] at h ⊢
      by_cases hk : k = name
      · simp [hk, findSurface]
      · simp only [hk, if_false, findSurface]
        simp only [hk, if_false] at h
        exact ih h

/-- Writing back a surface does not change lookups of other materials. -/
theorem findSurface_update_ne (ss : List (String × Surface)) (name k : String)
    (newSurface : Surface) (hk : k ≠ name) :
    findSurface (updateSurface ss name newSurface) k = findSurface ss k := by
  induction ss with
  | nil => rfl
  | cons head rest ih =>
      obtain ⟨k1, s⟩ := head
      by_cases h1 : k1 = name
      · subst h1
        simp [updateSurface, findSurface, Ne.symm hk]
      · by_cases h2 : k1 = k
        · subst h2
          simp [updateSurface, findSurface, h1]
        · simp [updateSurface, findSurface, h1, h2, ih]

/-- Every entry of ensureSurface ss name is either an old entry or the fresh
empty surface for the new material. -/
theorem mem_ensureSurface (ss : List (String × Surface)) (name : String)
    (p : String × Surface) (h : p ∈ ensureSurface ss name) :
    p ∈ ss ∨ p = (name, ⟨name, [], []⟩) := by
  unfold ensureSurface at h
  cases hf : findSurface ss name with
  | some s => rw [hf] at h; exact Or.inl h
  | none =>
      rw [hf] at h
      rcases List.mem_append.mp h with h1 | h1
      · exact Or.inl h1
      · simp at h1; exact Or.inr (by simp [h1])

/-- Every entry of updateSurface ss name newSurface either carries the new
surface or is an old entry. -/
theorem mem_updateSurface (ss : List (String × Surface)) (name : String)
    (newSurface : Surface) (p : String × Surface) (h : p ∈ updateSurface ss name newSurface) :
    p.2 = newSurface ∨ p ∈ ss := by
  induction ss with
  | nil => simp [updateSurface] at h
  | cons head rest ih =>
      obtain ⟨k, s⟩ := head
      simp only [updateSurface] at h
      by_cases hk : k = name
      · rw [if_pos hk] at h
        rcases List.mem_cons.mp h with h1 | h1
        · exact Or.inl (by simp [h1])
        · exact Or.inr (List.mem_cons_of_mem _ h1)
      · rw [if_neg hk] at h
        rcases List.mem_cons.mp h with h1 | h1
        · exact Or.inr (by simp [h1])
        · rcases ih h1 with h2 | h2
          · exact Or.inl h2
          · exact Or.inr (List.mem_cons_of_mem _ h2)

/-- A found surface is an entry of the map. -/
theorem findSurface_mem (ss : List (String × Surface)) (name : String) (s : Surface)
    (h : findSurface ss name = some s) : (name, s) ∈ ss := by
  induction ss with
  | nil => simp [findSurface] at h
  | cons head rest ih =>
      obtain ⟨k, s1⟩ := head
      simp only [findSurface] at h
      by_cases hk : k = name
      · rw [if_pos hk] at h
        exact List.mem_cons.mpr (Or.inl (by simp at h; simp [hk, h]))
      · rw [if_neg hk] at h
        exact List.mem_cons_of_mem _ (ih h)

/-- The re-emitted index list always has a length divisible by 3. -/
theorem emitReversed_length_mod3 : ∀ (l : List ℕ) (s : ℕ), (emitReversed l s).length % 3 = 0
  | [], _ => by simp [emitReversed]
  | [_], _ => by simp [emitReversed]
  | [_, _], _ => by simp [emitReversed]
  | _ :: _ :: _ :: rest, s => by
      have ih := emitReversed_length_mod3 rest s
      simp only [emitReversed, List.length_cons]
      omega

/-- Every re-emitted index is a source index plus the offset, so it is bounded
by the offset plus any bound on the source indices. -/
theorem emitReversed_mem_lt : ∀ (l : List ℕ) (s n : ℕ), (∀ a ∈ l, a < n) →
    ∀ j ∈ emitReversed l s, j < n + s
  | [], _, _, _ => by simp [emitReversed]
  | [_], _, _, _ => by simp [emitReversed]
  | [_, _], _, _, _ => by simp [emitReversed]
  | a :: b :: c :: rest, s, n, hb => by
      have ha : a < n := hb a (by simp)
      have hbn : b < n := hb b (by simp)
      have hc : c < n := hb c (by simp)
      have ih := emitReversed_mem_lt rest s n (fun x hx => hb x (by simp [hx]))
      intro j hj
      simp only [emitReversed, List.mem_cons] at hj
      rcases hj with rfl | rfl | rfl | hj
      · omega
      · omega
      · omega
      · exact ih j hj

/-- The k-th emitted triple is the k-th source triple reversed, each index
offset by indexStart. -/
theorem emitReversed_getD : ∀ (l : List ℕ) (s k : ℕ), 3 * k + 2 < l.length →
    ((emitReversed l s).drop (3 * k)).take 3 =
      [l.getD (3 * k + 2) 0 + s, l.getD (3 * k + 1) 0 + s, l.getD (3 * k) 0 + s]
  | [], _, k, h => by simp at h
  | [_], _, k, h => by simp at h
  | [_, _], _, k, h => by simp at h
  | a :: b :: c :: rest, s, 0, h => by
      simp [emitReversed]
  | a :: b :: c :: rest, s, k + 1, h => by
      have h3 : 3 * k + 2 < rest.length := by
        simp only [List.length_cons] at h; omega
      have ih := emitReversed_getD rest s k h3
      have e1 : 3 * (k + 1) = 3 * k + 1 + 1 + 1 := by ring
      rw [e1]
      simp only [emitReversed, List.drop_succ_cons, List.getD_cons_succ]
      exact ih

/-- A call with fewer than 3 indices throws after ensureSurface has already
run: the result state is exactly the ensured map. -/
theorem addSurface_rejected (st : ExporterState) (inc : FbxSurface) (T : Matrix4)
    (h : inc.getIndexArray.length < 3) :
    addSurface st inc T =
      (⟨ensureSurface st.surfaces inc.getActiveMaterial⟩,
        some "Rejecting model surface with less than 3 indices.") := by
  simp [addSurface, h]

/-- An accepted call writes back the target surface extended by the
transformed vertices and the reversed, offset index triples. -/
theorem addSurface_accepted (st : ExporterState) (inc : FbxSurface) (T : Matrix4)
    (h : ¬ inc.getIndexArray.length < 3) :
    addSurface st inc T =
      (⟨updateSurface (ensureSurface st.surfaces inc.getActiveMaterial)
          inc.getActiveMaterial
          { surfaceFor (ensureSurface st.surfaces inc.getActiveMaterial)
              inc.getActiveMaterial with
            vertices := (surfaceFor (ensureSurface st.surfaces inc.getActiveMaterial)
                inc.getActiveMaterial).vertices ++
              inc.getVertexArray.map
                (transformVertex T T.getFullInverse.getTransposed),
            indices := (surfaceFor (ensureSurface st.surfaces inc.getActiveMaterial)
                inc.getActiveMaterial).indices ++
              emitReversed inc.getIndexArray
                (surfaceFor (ensureSurface st.surfaces inc.getActiveMaterial)
                  inc.getActiveMaterial).vertices.length }⟩,
        none) := by
  simp [addSurface, h]

/-- After an accepted call the target surface is found under the incoming
material and carries the appended data. -/
theorem addSurface_accepted_find (st : ExporterState) (inc : FbxSurface) (T : Matrix4)
    (h : ¬ inc.getIndexArray.length < 3) :
    (addSurface st inc T).2 = none ∧
    findSurface (addSurface st inc T).1.surfaces inc.getActiveMaterial = some
      { surfaceFor (ensureSurface st.surfaces inc.getActiveMaterial)
          inc.getActiveMaterial with
        vertices := (surfaceFor (ensureSurface st.surfaces inc.getActiveMaterial)
            inc.getActiveMaterial).vertices ++
          inc.getVertexArray.map (transformVertex T T.getFullInverse.getTransposed),
        indices := (surfaceFor (ensureSurface st.surfaces inc.getActiveMaterial)
            inc.getActiveMaterial).indices ++
          emitReversed inc.getIndexArray
            (surfaceFor (ensureSurface st.surfaces inc.getActiveMaterial)
              inc.getActiveMaterial).vertices.length } := by
  rw [addSurface_accepted st inc T h]
  refine ⟨rfl, ?_⟩
  exact findSurface_update_self _ _ _
    (by rw [findSurface_ensure_self]; rfl)

/-- Claim C10: calling addSurface with an unknown material and an index list
of fewer than 3 indices throws, yet the surface map has gained a new entry
holding an empty Surface for that material, because ensureSurface runs before
the index-count check — the exporter state is not left unchanged on a
geometry error. -/
theorem addSurface_error_leaves_ensured_entry (st : ExporterState) (inc : FbxSurface)
    (T : Matrix4)
    (habs : findSurface st.surfaces inc.getActiveMaterial = none)
    (hshort : inc.getIndexArray.length < 3) :
    (addSurface st inc T).2 = some "Rejecting model surface with less than 3 indices."
    ∧ findSurface (addSurface st inc T).1.surfaces inc.getActiveMaterial
        = some ⟨inc.getActiveMaterial, [], []⟩ := by
  rw [addSurface_rejected st inc T hshort]
  refine ⟨rfl, ?_⟩
  rw [findSurface_ensure_self]
  simp [surfaceFor, habs]

/-- Witness for C10 at a concrete input: an empty exporter fed a degenerate
surface under material "mat". -/
theorem addSurface_error_leaves_ensured_entry_witness :
    findSurface (ExporterState.mk []).surfaces (degenerateSurface "mat").getActiveMaterial
        = none
    ∧ (degenerateSurface "mat").getIndexArray.length < 3
    ∧ ((addSurface ⟨[]⟩ (degenerateSurface "mat") Matrix4.getIdentity).2
          = some "Rejecting model surface with less than 3 indices."
        ∧ findSurface (addSurface ⟨[]⟩ (degenerateSurface "mat")
            Matrix4.getIdentity).1.surfaces (degenerateSurface "mat").getActiveMaterial
          = some ⟨(degenerateSurface "mat").getActiveMaterial, [], []⟩) :=
  ⟨rfl, by decide,
    addSurface_error_leaves_ensured_entry ⟨[]⟩ (degenerateSurface "mat")
      Matrix4.getIdentity rfl (by decide)⟩

/-- Claim C4: an accepted addSurface call re-emits each source triangle
(i0, i1, i2) as (i2, i1, i0), each index offset by the target surface's vertex
count at call start, while the vertex data is appended in source order,
untouched except for the transform; in particular a fresh surface fed the
clockwise triangle (0, 1, 2) ends up with the index triple (2, 1, 0). -/
theorem addSurface_reverses_winding (st : ExporterState) (inc : FbxSurface) (T : Matrix4)
    (k : ℕ) (hk : 3 * k + 2 < inc.getIndexArray.length) :
    ((addSurface st inc T).2 = none
    ∧ ∃ target : Surface,
        findSurface (addSurface st inc T).1.surfaces inc.getActiveMaterial = some target
        ∧ target.vertices = (surfaceFor (ensureSurface st.surfaces inc.getActiveMaterial)
              inc.getActiveMaterial).vertices ++
            inc.getVertexArray.map (transformVertex T T.getFullInverse.getTransposed)
        ∧ (target.indices.drop
            ((surfaceFor (ensureSurface st.surfaces inc.getActiveMaterial)
                inc.getActiveMaterial).indices.length + 3 * k)).take 3 =
          [inc.getIndexArray.getD (3 * k + 2) 0 +
              (surfaceFor (ensureSurface st.surfaces inc.getActiveMaterial)
                inc.getActiveMaterial).vertices.length,
            inc.getIndexArray.getD (3 * k + 1) 0 +
              (surfaceFor (ensureSurface st.surfaces inc.getActiveMaterial)
                inc.getActiveMaterial).vertices.length,
            inc.getIndexArray.getD (3 * k) 0 +
              (surfaceFor (ensureSurface st.surfaces inc.getActiveMaterial)
                inc.getActiveMaterial).vertices.length])
    ∧ (surfaceFor (addSurface ⟨[]⟩ (triangleSurface "tri")
          Matrix4.getIdentity).1.surfaces "tri").indices = [2, 1, 0] := by
  have h3 : ¬ inc.getIndexArray.length < 3 := by omega
  obtain ⟨herr, hfind⟩ := addSurface_accepted_find st inc T h3
  refine ⟨⟨herr, ⟨_, hfind, rfl, ?_⟩⟩, rfl⟩
  rw [List.drop_append, emitReversed_getD inc.getIndexArray _ k hk]

/-- Witness for C4: the fresh surface fed the single clockwise triangle
(0, 1, 2) under the identity transform. -/
theorem addSurface_reverses_winding_witness :
    3 * 0 + 2 < (triangleSurface "tri").getIndexArray.length
    ∧ (((addSurface ⟨[]⟩ (triangleSurface "tri") Matrix4.getIdentity).2 = none
    ∧ ∃ target : Surface,
        findSurface (addSurface ⟨[]⟩ (triangleSurface "tri")
            Matrix4.getIdentity).1.surfaces (triangleSurface "tri").getActiveMaterial
          = some target
        ∧ target.vertices = (surfaceFor (ensureSurface (ExporterState.mk []).surfaces
              (triangleSurface "tri").getActiveMaterial)
              (triangleSurface "tri").getActiveMaterial).vertices ++
            (triangleSurface "tri").getVertexArray.map
              (transformVertex Matrix4.getIdentity
                Matrix4.getIdentity.getFullInverse.getTransposed)
        ∧ (target.indices.drop
            ((surfaceFor (ensureSurface (ExporterState.mk []).surfaces
                (triangleSurface "tri").getActiveMaterial)
                (triangleSurface "tri").getActiveMaterial).indices.length + 3 * 0)).take 3 =
          [(triangleSurface "tri").getIndexArray.getD (3 * 0 + 2) 0 +
              (surfaceFor (ensureSurface (ExporterState.mk []).surfaces
                (triangleSurface "tri").getActiveMaterial)
                (triangleSurface "tri").getActiveMaterial).vertices.length,
            (triangleSurface "tri").getIndexArray.getD (3 * 0 + 1) 0 +
              (surfaceFor (ensureSurface (ExporterState.mk []).surfaces
                (triangleSurface "tri").getActiveMaterial)
                (triangleSurface "tri").getActiveMaterial).vertices.length,
            (triangleSurface "tri").getIndexArray.getD (3 * 0) 0 +
              (surfaceFor (ensureSurface (ExporterState.mk []).surfaces
                (triangleSurface "tri").getActiveMaterial)
                (triangleSurface "tri").getActiveMaterial).vertices.length])
    ∧ (surfaceFor (addSurface ⟨[]⟩ (triangleSurface "tri")
          Matrix4.getIdentity).1.surfaces "tri").indices = [2, 1, 0]) :=
  ⟨by decide,
    addSurface_reverses_winding ⟨[]⟩ (triangleSurface "tri") Matrix4.getIdentity 0
      (by decide)⟩

/-- The vertex hash index misses exactly when the vertex is not among its
keys. -/
theorem findVertexIndex_none_iff (m : List (ArbitraryMeshVertex × ℕ))
    (v : ArbitraryMeshVertex) :
    findVertexIndex m v = none ↔ v ∉ m.map Prod.fst := by
  induction m with
  | nil => simp [findVertexIndex]
  | cons p rest ih =>
      obtain ⟨k, i⟩ := p
      simp only [findVertexIndex, List.map_cons, List.mem_cons]
      by_cases hk : k = v
      · simp [hk]
      · have hv : ¬ (v = k) := fun h => hk h.symm
        simp [hk, hv, ih]

/-- Along any addVertex stream the hash-index keys are exactly the vertex
array, and the vertex array stays free of duplicates. -/
theorem foldl_addVertex_invariant (vs : List ArbitraryMeshVertex) :
    ∀ s : FbxSurface, s.vertexIndices.map Prod.fst = s.vertices → s.vertices.Nodup →
      ((vs.foldl FbxSurface.addVertex s).vertexIndices.map Prod.fst
          = (vs.foldl FbxSurface.addVertex s).vertices
        ∧ (vs.foldl FbxSurface.addVertex s).vertices.Nodup) := by
  induction vs with
  | nil => intro s h1 h2; exact ⟨h1, h2⟩
  | cons v vs ih =>
      intro s h1 h2
      simp only [List.foldl_cons]
      cases hf : findVertexIndex s.vertexIndices v with
      | some i =>
          have he : s.addVertex v = { s with indices := s.indices ++ [i] } := by
            simp [FbxSurface.addVertex, hf]
          rw [he]
          exact ih _ h1 h2
      | none =>
          have he : s.addVertex v =
              { s with
                vertexIndices := s.vertexIndices ++ [(v, s.vertices.length)],
                vertices := s.vertices ++ [v],
                indices := s.indices ++ [s.vertices.length] } := by
            simp [FbxSurface.addVertex, hf]
          rw [he]
          have hv : v ∉ s.vertices := by
            rw [← h1]; exact (findVertexIndex_none_iff _ _).mp hf
          apply ih
          · simp [h1]
          · simp [List.nodup_append, h2, hv]

/-- Claim C1 counterexample: feeding the same single-triangle FbxSurface for
material "m" through two addSurface calls yields a Surface with six vertices
in which positions 0 and 3 hold component-wise-identical vertices — addSurface
does not run the incoming vertices through the dedup index. -/
theorem addSurface_duplicates_vertices_across_calls :
    (addSurface (addSurface ⟨[]⟩ (triangleSurface "m") Matrix4.getIdentity).1
        (triangleSurface "m") Matrix4.getIdentity).2 = none
    ∧ (surfaceFor (addSurface (addSurface ⟨[]⟩ (triangleSurface "m")
          Matrix4.getIdentity).1 (triangleSurface "m")
          Matrix4.getIdentity).1.surfaces "m").vertices.length = 6
    ∧ (surfaceFor (addSurface (addSurface ⟨[]⟩ (triangleSurface "m")
          Matrix4.getIdentity).1 (triangleSurface "m")
          Matrix4.getIdentity).1.surfaces "m").vertices.getD 0 vA
      = (surfaceFor (addSurface (addSurface ⟨[]⟩ (triangleSurface "m")
          Matrix4.getIdentity).1 (triangleSurface "m")
          Matrix4.getIdentity).1.surfaces "m").vertices.getD 3 vA :=
  ⟨rfl, rfl, rfl⟩

/-- Claim C1 (amended): deduplication lives in FbxSurface::addVertex — an
FbxSurface built through addVertex has no two component-wise-identical
vertices — while ModelExporterBase::addSurface performs no deduplication: an
accepted call appends every transformed incoming vertex directly to the
target Surface, so identical vertices can recur across addSurface calls. -/
theorem dedup_in_addVertex_not_in_addSurface
    (vs : List ArbitraryMeshVertex) (material : String) (st : ExporterState)
    (inc : FbxSurface) (T : Matrix4) (hacc : ¬ inc.getIndexArray.length < 3) :
    ((vs.foldl FbxSurface.addVertex (FbxSurface.emptySurface material)).vertices).Nodup
    ∧ ∃ target : Surface,
        findSurface (addSurface st inc T).1.surfaces inc.getActiveMaterial = some target
        ∧ target.vertices = (surfaceFor (ensureSurface st.surfaces inc.getActiveMaterial)
              inc.getActiveMaterial).vertices ++
            inc.getVertexArray.map (transformVertex T T.getFullInverse.getTransposed) := by
  constructor
  · exact (foldl_addVertex_invariant vs (FbxSurface.emptySurface material) rfl
      (by simp [FbxSurface.emptySurface])).2
  · obtain ⟨_, hfind⟩ := addSurface_accepted_find st inc T hacc
    exact ⟨_, hfind, rfl⟩

/-- Witness for the amended C1 at concrete inputs: a vertex stream with a
repeated vertex, and one accepted addSurface call. -/
theorem dedup_in_addVertex_not_in_addSurface_witness :
    ¬ (triangleSurface "m").getIndexArray.length < 3
    ∧ ((([vA, vB, vA].foldl FbxSurface.addVertex
          (FbxSurface.emptySurface "m")).vertices).Nodup
    ∧ ∃ target : Surface,
        findSurface (addSurface ⟨[]⟩ (triangleSurface "m")
            Matrix4.getIdentity).1.surfaces (triangleSurface "m").getActiveMaterial
          = some target
        ∧ target.vertices = (surfaceFor (ensureSurface (ExporterState.mk []).surfaces
              (triangleSurface "m").getActiveMaterial)
              (triangleSurface "m").getActiveMaterial).vertices ++
            (triangleSurface "m").getVertexArray.map
              (transformVertex Matrix4.getIdentity
                Matrix4.getIdentity.getFullInverse.getTransposed)) :=
  ⟨by decide,
    dedup_in_addVertex_not_in_addSurface [vA, vB, vA] "m" ⟨[]⟩ (triangleSurface "m")
      Matrix4.getIdentity (by decide)⟩

/-- Claim C2 (amended): a source index list with fewer than 3 indices makes
addSurface throw the InvalidGeometry runtime_error and contribute no geometry
for that material (only the ensured map entry), but the error is not local:
it propagates out of the ExportFbxMesh loop, so none of the surfaces after
the failing one are aggregated, whatever they are. -/
theorem addSurfaces_rejects_short_index_list (st : ExporterState) (bad : FbxSurface)
    (rest : List FbxSurface) (T : Matrix4) (hshort : bad.getIndexArray.length < 3) :
    addSurfaces st (bad :: rest) T =
      (⟨ensureSurface st.surfaces bad.getActiveMaterial⟩,
        some "Rejecting model surface with less than 3 indices.") := by
  simp [addSurfaces, addSurface_rejected st bad T hshort]

/-- Witness for the amended C2 at concrete inputs. -/
theorem addSurfaces_rejects_short_index_list_witness :
    (degenerateSurface "a").getIndexArray.length < 3
    ∧ addSurfaces ⟨[]⟩ [degenerateSurface "a", triangleSurface "b"] Matrix4.getIdentity =
      (⟨ensureSurface (ExporterState.mk []).surfaces
          (degenerateSurface "a").getActiveMaterial⟩,
        some "Rejecting model surface with less than 3 indices.") :=
  ⟨by decide,
    addSurfaces_rejects_short_index_list ⟨[]⟩ (degenerateSurface "a")
      [triangleSurface "b"] Matrix4.getIdentity (by decide)⟩

/-- Claim C2 counterexample: with a degenerate surface for material "a"
followed by a valid triangle for material "b", the export loop stops at the
error and material "b" is never aggregated — the geometry error aborts
unrelated materials in the same export. -/
theorem geometry_error_aborts_other_materials :
    (addSurfaces ⟨[]⟩ [degenerateSurface "a", triangleSurface "b"] Matrix4.getIdentity).2
      = some "Rejecting model surface with less than 3 indices."
    ∧ findSurface (addSurfaces ⟨[]⟩ [degenerateSurface "a", triangleSurface "b"]
        Matrix4.getIdentity).1.surfaces "b" = none :=
  ⟨rfl, rfl⟩

/-- The surface a material name resolves to satisfies the index-validity
invariant whenever every surface of the map does (an absent name resolves to
the trivially valid empty surface). -/
theorem surfaceFor_validity (ss : List (String × Surface)) (name : String)
    (hss : ∀ p ∈ ss, (∀ i ∈ p.2.indices, i < p.2.vertices.length)
      ∧ p.2.indices.length % 3 = 0) :
    (∀ i ∈ (surfaceFor ss name).indices, i < (surfaceFor ss name).vertices.length)
    ∧ (surfaceFor ss name).indices.length % 3 = 0 := by
  unfold surfaceFor
  cases hf : findSurface ss name with
  | none => simp
  | some s => simpa using hss (name, s) (findSurface_mem ss name s hf)

/-- ensureSurface preserves the index-validity invariant of every entry. -/
theorem ensureSurface_validity (ss : List (String × Surface)) (name : String)
    (hss : ∀ p ∈ ss, (∀ i ∈ p.2.indices, i < p.2.vertices.length)
      ∧ p.2.indices.length % 3 = 0) :
    ∀ p ∈ ensureSurface ss name, (∀ i ∈ p.2.indices, i < p.2.vertices.length)
      ∧ p.2.indices.length % 3 = 0 := by
  intro p hp
  rcases mem_ensureSurface ss name p hp with h1 | h1
  · exact hss p h1
  · rw [h1]; simp

/-- One addSurface call, accepted or not, preserves the invariant that every
surface's indices point into its vertex array and come in whole triangles,
provided the incoming FbxSurface satisfies its own index validity. -/
theorem addSurface_preserves_validity (st : ExporterState) (inc : FbxSurface) (T : Matrix4)
    (hst : ∀ p ∈ st.surfaces, (∀ i ∈ p.2.indices, i < p.2.vertices.length)
      ∧ p.2.indices.length % 3 = 0)
    (hinc : ∀ i ∈ inc.getIndexArray, i < inc.getVertexArray.length) :
    ∀ p ∈ (addSurface st inc T).1.surfaces,
      (∀ i ∈ p.2.indices, i < p.2.vertices.length) ∧ p.2.indices.length % 3 = 0 := by
  by_cases h : inc.getIndexArray.length < 3
  · rw [addSurface_rejected st inc T h]
    exact ensureSurface_validity st.surfaces inc.getActiveMaterial hst
  · rw [addSurface_accepted st inc T h]
    intro p hp
    have hens := ensureSurface_validity st.surfaces inc.getActiveMaterial hst
    rcases mem_updateSurface _ _ _ p hp with h1 | h1
    · have hold := surfaceFor_validity (ensureSurface st.surfaces inc.getActiveMaterial)
        inc.getActiveMaterial hens
      rw [h1]
      constructor
      · intro i hi
        simp only [List.mem_append] at hi
        simp only [List.length_append, List.length_map]
        rcases hi with hi | hi
        · have := hold.1 i hi
          omega
        · have := emitReversed_mem_lt inc.getIndexArray
            (surfaceFor (ensureSurface st.surfaces inc.getActiveMaterial)
              inc.getActiveMaterial).vertices.length
            inc.getVertexArray.length hinc i hi
          omega
      · simp only [List.length_append]
        have h1 := hold.2
        have h2 := emitReversed_length_mod3 inc.getIndexArray
          (surfaceFor (ensureSurface st.surfaces inc.getActiveMaterial)
            inc.getActiveMaterial).vertices.length
        omega
    · exact hens p h1

/-- Claim C5: for any Surface produced by a sequence of addSurface calls
starting from the empty exporter, with each incoming FbxSurface satisfying
its own index validity, every stored index is strictly below the vertex-array
length and the index count is a multiple of 3. -/
theorem pipeline_index_validity (calls : List (FbxSurface × Matrix4))
    (hcalls : ∀ c ∈ calls, ∀ i ∈ c.1.getIndexArray, i < c.1.getVertexArray.length) :
    ∀ p ∈ (runCalls ⟨[]⟩ calls).surfaces,
      (∀ i ∈ p.2.indices, i < p.2.vertices.length) ∧ p.2.indices.length % 3 = 0 := by
  have main : ∀ (cs : List (FbxSurface × Matrix4)) (st : ExporterState),
      (∀ p ∈ st.surfaces, (∀ i ∈ p.2.indices, i < p.2.vertices.length)
        ∧ p.2.indices.length % 3 = 0) →
      (∀ c ∈ cs, ∀ i ∈ c.1.getIndexArray, i < c.1.getVertexArray.length) →
      ∀ p ∈ (runCalls st cs).surfaces,
        (∀ i ∈ p.2.indices, i < p.2.vertices.length) ∧ p.2.indices.length % 3 = 0 := by
    intro cs
    induction cs with
    | nil => intro st hst _; simpa [runCalls] using hst
    | cons c cs ih =>
        intro st hst hcs
        have hstep := addSurface_preserves_validity st c.1 c.2 hst (hcs c (by simp))
        have : runCalls st (c :: cs) = runCalls (addSurface st c.1 c.2).1 cs := by
          simp [runCalls]
        rw [this]
        exact ih _ hstep (fun c1 h => hcs c1 (by simp [h]))
  exact main calls ⟨[]⟩ (by simp) hcalls

/-- Witness for C5: one accepted call with a valid triangle surface. -/
theorem pipeline_index_validity_witness :
    (∀ c ∈ [(triangleSurface "m", Matrix4.getIdentity)],
      ∀ i ∈ c.1.getIndexArray, i < c.1.getVertexArray.length)
    ∧ ∀ p ∈ (runCalls ⟨[]⟩ [(triangleSurface "m", Matrix4.getIdentity)]).surfaces,
        (∀ i ∈ p.2.indices, i < p.2.vertices.length) ∧ p.2.indices.length % 3 = 0 :=
  ⟨by decide, pipeline_index_validity [(triangleSurface "m", Matrix4.getIdentity)]
    (by decide)⟩

/-- addVertex on a hash-index hit only appends the existing index. -/
theorem addVertex_lookup_some (s : FbxSurface) (v : ArbitraryMeshVertex) (i : ℕ)
    (h : findVertexIndex s.vertexIndices v = some i) :
    s.addVertex v = { s with indices := s.indices ++ [i] } := by
  simp [FbxSurface.addVertex, h]

/-- addVertex on a hash-index miss appends the vertex, its new map entry and
its new index. -/
theorem addVertex_lookup_none (s : FbxSurface) (v : ArbitraryMeshVertex)
    (h : findVertexIndex s.vertexIndices v = none) :
    s.addVertex v =
      { s with
        vertexIndices := s.vertexIndices ++ [(v, s.vertices.length)],
        vertices := s.vertices ++ [v],
        indices := s.indices ++ [s.vertices.length] } := by
  simp [FbxSurface.addVertex, h]

/-- Repeating a vertex already in the hash index only appends copies of its
stable index. -/
theorem foldl_replicate_addVertex (v : ArbitraryMeshVertex) (i : ℕ) :
    ∀ (k : ℕ) (s : FbxSurface), findVertexIndex s.vertexIndices v = some i →
      (List.replicate k v).foldl FbxSurface.addVertex s =
        { s with indices := s.indices ++ List.replicate k i }
  | 0, s, _ => by simp
  | k + 1, s, h => by
      simp only [List.replicate_succ, List.foldl_cons]
      rw [addVertex_lookup_some s v i h]
      rw [foldl_replicate_addVertex v i k { s with indices := s.indices ++ [i] } h]
      simp [List.append_assoc, List.replicate_succ]

/-- Claim C6: inserting the same vertex N ≥ 1 times into a fresh surface
stores N identical indices (all 0) and exactly one vertex; a miss records the
index len(vertices) - 1 for the appended vertex; and no call rewrites the
indices or vertices already issued — they stay as a prefix. -/
theorem addVertex_dedup_idempotent (material : String) (v : ArbitraryMeshVertex)
    (N : ℕ) (hN : 1 ≤ N) :
    (((List.replicate N v).foldl FbxSurface.addVertex
        (FbxSurface.emptySurface material)).vertices = [v]
      ∧ ((List.replicate N v).foldl FbxSurface.addVertex
        (FbxSurface.emptySurface material)).indices = List.replicate N 0)
    ∧ (∀ (s : FbxSurface) (w : ArbitraryMeshVertex),
        findVertexIndex s.vertexIndices w = none →
          (s.addVertex w).vertices.length = s.vertices.length + 1
          ∧ (s.addVertex w).indices = s.indices ++ [(s.addVertex w).vertices.length - 1])
    ∧ (∀ (s : FbxSurface) (w : ArbitraryMeshVertex),
        (s.addVertex w).indices.take s.indices.length = s.indices
        ∧ (s.addVertex w).vertices.take s.vertices.length = s.vertices) := by
  refine ⟨?_, ?_, ?_⟩
  · obtain ⟨k, rfl⟩ : ∃ k, N = k + 1 := ⟨N - 1, by omega⟩
    simp only [List.replicate_succ, List.foldl_cons]
    rw [addVertex_lookup_none (FbxSurface.emptySurface material) v rfl]
    have hlook : findVertexIndex
        ({ FbxSurface.emptySurface material with
            vertexIndices := (FbxSurface.emptySurface material).vertexIndices
              ++ [(v, (FbxSurface.emptySurface material).vertices.length)],
            vertices := (FbxSurface.emptySurface material).vertices ++ [v],
            indices := (FbxSurface.emptySurface material).indices
              ++ [(FbxSurface.emptySurface material).vertices.length] } :
          FbxSurface).vertexIndices v = some 0 := by
      simp [FbxSurface.emptySurface, findVertexIndex]
    rw [foldl_replicate_addVertex v 0 k _ hlook]
    constructor
    · rfl
    · simp [FbxSurface.emptySurface, List.replicate_succ]
  · intro s w h
    rw [addVertex_lookup_none s w h]
    simp
  · intro s w
    cases hf : findVertexIndex s.vertexIndices w with
    | some i =>
        rw [addVertex_lookup_some s w i hf]
        simp [List.take_left, List.take_length]
    | none =>
        rw [addVertex_lookup_none s w hf]
        simp [List.take_left]

/-- Witness for C6 at N = 3 with a concrete vertex. -/
theorem addVertex_dedup_idempotent_witness :
    1 ≤ 3
    ∧ ((((List.replicate 3 vA).foldl FbxSurface.addVertex
          (FbxSurface.emptySurface "m")).vertices = [vA]
        ∧ ((List.replicate 3 vA).foldl FbxSurface.addVertex
          (FbxSurface.emptySurface "m")).indices = List.replicate 3 0)
      ∧ (∀ (s : FbxSurface) (w : ArbitraryMeshVertex),
          findVertexIndex s.vertexIndices w = none →
            (s.addVertex w).vertices.length = s.vertices.length + 1
            ∧ (s.addVertex w).indices = s.indices ++ [(s.addVertex w).vertices.length - 1])
      ∧ (∀ (s : FbxSurface) (w : ArbitraryMeshVertex),
          (s.addVertex w).indices.take s.indices.length = s.indices
          ∧ (s.addVertex w).vertices.take s.vertices.length = s.vertices)) :=
  ⟨by decide, addVertex_dedup_idempotent "m" vA 3 (by decide)⟩

/-- The exact rational square root recovers the root of a square of a
non-negative rational. -/
theorem ratSqrt_mul_self (r : ℚ) (hr : 0 ≤ r) : ratSqrt (r * r) = r := by
  have hrnum : 0 ≤ r.num := Rat.num_nonneg.mpr hr
  obtain ⟨a, ha⟩ : ∃ a : ℕ, r.num = (a : ℤ) := ⟨r.num.toNat, (Int.toNat_of_nonneg hrnum).symm⟩
  have h1 : ((a : ℤ) * a).toNat = a * a := by
    rw [← Nat.cast_mul, Int.toNat_natCast]
  unfold ratSqrt
  simp only [Rat.mul_self_num, Rat.mul_self_den, ha, h1, Nat.sqrt_eq]
  rw [if_pos ⟨by push_cast; ring, by ring⟩]
  have hv := Rat.num_div_den r
  rw [ha] at hv
  have hcast : ((a : ℕ) : ℚ) = (((a : ℕ) : ℤ) : ℚ) := by push_cast; ring
  rw [hcast]
  exact hv

/-- Normalizing the vector (1/2, 0, 0) yields the unit vector (1, 0, 0). -/
theorem getNormalised_half : Vec3.getNormalised ⟨1/2, 0, 0⟩ = ⟨1, 0, 0⟩ := by
  have hls : (Vec3.mk (1/2) 0 0).getLengthSquared = (1/2 : ℚ) * (1/2) := by
    unfold Vec3.getLengthSquared; norm_num
  unfold Vec3.getNormalised
  rw [hls, ratSqrt_mul_self (1/2 : ℚ) (by norm_num)]
  ext <;> norm_num

/-- Claim C8: the pipeline's normal transform is the transposed full inverse
followed by re-normalization; for an affine transform (w row (0,0,0,1)) the
translation column of that normal matrix is zero, so it cannot affect the
transformed normal (transformPoint and transformDirection agree); and under
the non-uniform scale (2,1,1) the transformed-and-renormalized normal of
(1,0,0) is exactly (1,0,0). -/
theorem normal_uses_inverse_transpose (T : Matrix4)
    (hxw : T.xw = 0) (hyw : T.yw = 0) (hzw : T.zw = 0) (htw : T.tw = 1)
    (mv : ArbitraryMeshVertex) (v : Vec3) :
    (transformVertex T T.getFullInverse.getTransposed mv).normal
      = (T.getFullInverse.getTransposed.transformPoint mv.normal).getNormalised
    ∧ T.getFullInverse.getTransposed.tx = 0
    ∧ T.getFullInverse.getTransposed.ty = 0
    ∧ T.getFullInverse.getTransposed.tz = 0
    ∧ T.getFullInverse.getTransposed.transformPoint v
      = T.getFullInverse.getTransposed.transformDirection v
    ∧ ((Matrix4.getScale ⟨2, 1, 1⟩).getFullInverse.getTransposed.transformPoint
        ⟨1, 0, 0⟩).getNormalised = ⟨1, 0, 0⟩ := by
  have htx : T.getFullInverse.getTransposed.tx = 0 := by
    simp only [Matrix4.getFullInverse, Matrix4.getTransposed, Matrix4.byColumns]
    rw [hxw, hyw, hzw]; ring
  have hty : T.getFullInverse.getTransposed.ty = 0 := by
    simp only [Matrix4.getFullInverse, Matrix4.getTransposed, Matrix4.byColumns]
    rw [hxw, hyw, hzw]; ring
  have htz : T.getFullInverse.getTransposed.tz = 0 := by
    simp only [Matrix4.getFullInverse, Matrix4.getTransposed, Matrix4.byColumns]
    rw [hxw, hyw, hzw]; ring
  refine ⟨rfl, htx, hty, htz, ?_, ?_⟩
  · ext <;> simp [Matrix4.transformPoint, Matrix4.transformDirection, htx, hty, htz]
  · have hpt : (Matrix4.getScale ⟨2, 1, 1⟩).getFullInverse.getTransposed.transformPoint
        ⟨1, 0, 0⟩ = ⟨1/2, 0, 0⟩ := by
      norm_num [Matrix4.getScale, Matrix4.byColumns, Matrix4.getFullInverse,
        Matrix4.getTransposed, Matrix4.transformPoint, Vec3.mk.injEq]
    rw [hpt, getNormalised_half]

/-- Witness for C8 at the concrete affine transform scale(2,1,1). -/
theorem normal_uses_inverse_transpose_witness :
    (Matrix4.getScale ⟨2, 1, 1⟩).xw = 0
    ∧ (Matrix4.getScale ⟨2, 1, 1⟩).tw = 1
    ∧ ((transformVertex (Matrix4.getScale ⟨2, 1, 1⟩)
          (Matrix4.getScale ⟨2, 1, 1⟩).getFullInverse.getTransposed vA).normal
        = ((Matrix4.getScale ⟨2, 1, 1⟩).getFullInverse.getTransposed.transformPoint
            vA.normal).getNormalised
      ∧ (Matrix4.getScale ⟨2, 1, 1⟩).getFullInverse.getTransposed.tx = 0
      ∧ (Matrix4.getScale ⟨2, 1, 1⟩).getFullInverse.getTransposed.ty = 0
      ∧ (Matrix4.getScale ⟨2, 1, 1⟩).getFullInverse.getTransposed.tz = 0
      ∧ (Matrix4.getScale ⟨2, 1, 1⟩).getFullInverse.getTransposed.transformPoint ⟨4, 5, 6⟩
        = (Matrix4.getScale ⟨2, 1, 1⟩).getFullInverse.getTransposed.transformDirection
            ⟨4, 5, 6⟩
      ∧ ((Matrix4.getScale ⟨2, 1, 1⟩).getFullInverse.getTransposed.transformPoint
          ⟨1, 0, 0⟩).getNormalised = ⟨1, 0, 0⟩) :=
  ⟨rfl, rfl,
    normal_uses_inverse_transpose (Matrix4.getScale ⟨2, 1, 1⟩) rfl rfl rfl rfl vA ⟨4, 5, 6⟩⟩

/-- Filtering out a path makes it unfindable. -/
theorem fsFind_filter_self (path : String) (l : List (String × String)) :
    fsFind (l.filter (fun p => p.1 ≠ path)) path = none := by
  induction l with
  | nil => rfl
  | cons head rest ih =>
      obtain ⟨q, c⟩ := head
      simp only [List.filter_cons]
      by_cases hq : q = path
      · simpa [hq] using ih
      · simpa [hq, fsFind] using ih

/-- Filtering out one path does not affect finding a different path. -/
theorem fsFind_filter_ne (path q : String) (hq : q ≠ path) (l : List (String × String)) :
    fsFind (l.filter (fun p => p.1 ≠ path)) q = fsFind l q := by
  induction l with
  | nil => rfl
  | cons head rest ih =>
      obtain ⟨k, c⟩ := head
      simp only [List.filter_cons]
      by_cases hk : k = path
      · subst hk
        have hne : ¬ (k = q) := fun h => hq h.symm
        simpa [fsFind, hne] using ih
      · rw [if_pos (by simpa using hk)]
        simp only [fsFind]
        rw [ih]

/-- Finding skips over a prefix in which the path does not occur. -/
theorem fsFind_append_of_none (l1 l2 : List (String × String)) (path : String)
    (h : fsFind l1 path = none) : fsFind (l1 ++ l2) path = fsFind l2 path := by
  induction l1 with
  | nil => rfl
  | cons p rest ih =>
      obtain ⟨k, c⟩ := p
      simp only [fsFind, List.cons_append] at h ⊢
      by_cases hk : k = path
      · simp [hk] at h
      · rw [if_neg hk] at h ⊢
        exact ih h

/-- Removing a path deletes that file. -/
theorem FS.lookup_remove_self (fs : FS) (path : String) :
    (fs.remove path).lookup path = none :=
  fsFind_filter_self path fs.files

/-- Removing a path leaves every other file unchanged. -/
theorem FS.lookup_remove_ne (fs : FS) (path q : String) (hq : q ≠ path) :
    (fs.remove path).lookup q = fs.lookup q :=
  fsFind_filter_ne path q hq fs.files

/-- After a rename the destination holds the moved content. -/
theorem FS.lookup_rename_to (fs : FS) (a b : String) (c : String)
    (h : fs.lookup a = some c) :
    (fs.rename a b).lookup b = some c := by
  unfold FS.rename
  rw [h]
  show fsFind (((fs.remove a).remove b).files ++ [(b, c)]) b = some c
  rw [fsFind_append_of_none _ _ _ (FS.lookup_remove_self (fs.remove a) b)]
  simp [fsFind]

/-- After a rename onto a different path the source file is gone. -/
theorem FS.lookup_rename_from (fs : FS) (a b : String) (c : String)
    (h : fs.lookup a = some c) (hne : a ≠ b) :
    (fs.rename a b).lookup a = none := by
  unfold FS.rename
  rw [h]
  have h1 : ((fs.remove a).remove b).lookup a = none := by
    rw [FS.lookup_remove_ne (fs.remove a) b a hne]
    exact FS.lookup_remove_self fs a
  show fsFind (((fs.remove a).remove b).files ++ [(b, c)]) a = none
  rw [fsFind_append_of_none _ _ _ h1]
  simp [fsFind, Ne.symm hne]

/-- The temporary sibling file never collides with the target path: its name
carries one extra character (the leading underscore). -/
theorem tempFile_ne_targetPath (s : ExportStream) : s.tempFile ≠ s.targetPath := by
  intro h
  have hlen := congrArg String.length h
  have h2 : ("/_" : String).length = 2 := rfl
  have h1 : ("/" : String).length = 1 := rfl
  simp only [ExportStream.tempFile, ExportStream.targetPath, String.length_append,
    h1, h2] at hlen
  omega

/-- Claim C3: close() removes a pre-existing target before renaming; a failed
removal raises the error with the filesystem untouched; a failed rename
raises the error at a point where the pre-existing target has already been
removed while the temporary file still holds the written content at its
temporary path — the target never ends up holding partial content; and a
successful close commits the temporary content to the target and removes the
temporary file. -/
theorem exportStream_close_atomic (s : ExportStream) (fs : FS) (c : String)
    (removeFails renameFails : Bool)
    (hc : fs.lookup s.tempFile = some c) :
    (removeFails = true → fs.fileExists s.targetPath = true →
      s.close fs removeFails renameFails
        = .ioError ("Could not remove the existing file " ++ s.targetPath) fs)
    ∧ (removeFails = false → renameFails = true →
        ∃ fs1 : FS,
          s.close fs removeFails renameFails
            = .ioError ("Could not rename the temporary file: " ++ s.tempFile) fs1
          ∧ fs1.lookup s.tempFile = some c
          ∧ fs1.lookup s.targetPath = none)
    ∧ (removeFails = false → renameFails = false →
        ∃ fs2 : FS,
          s.close fs removeFails renameFails = .committed fs2
          ∧ fs2.lookup s.targetPath = some c
          ∧ fs2.lookup s.tempFile = none) := by
  have hne := tempFile_ne_targetPath s
  refine ⟨?_, ?_, ?_⟩
  · intro h1 h2
    subst h1
    simp [ExportStream.close, h2]
  · intro h1 h2
    subst h1; subst h2
    cases hex : fs.fileExists s.targetPath with
    | true =>
        refine ⟨fs.remove s.targetPath, ?_, ?_, ?_⟩
        · simp [ExportStream.close, hex]
        · rw [FS.lookup_remove_ne fs s.targetPath s.tempFile hne]
          exact hc
        · exact FS.lookup_remove_self fs s.targetPath
    | false =>
        refine ⟨fs, ?_, hc, ?_⟩
        · simp [ExportStream.close, hex]
        · have := hex
          unfold FS.fileExists at this
          exact Option.not_isSome_iff_eq_none.mp (by simp [this])
  · intro h1 h2
    subst h1; subst h2
    cases hex : fs.fileExists s.targetPath with
    | true =>
        have hc1 : (fs.remove s.targetPath).lookup s.tempFile = some c := by
          rw [FS.lookup_remove_ne fs s.targetPath s.tempFile hne]
          exact hc
        refine ⟨(fs.remove s.targetPath).rename s.tempFile s.targetPath, ?_, ?_, ?_⟩
        · simp [ExportStream.close, hex]
        · exact FS.lookup_rename_to _ _ _ _ hc1
        · exact FS.lookup_rename_from _ _ _ _ hc1 hne
    | false =>
        refine ⟨fs.rename s.tempFile s.targetPath, ?_, ?_, ?_⟩
        · simp [ExportStream.close, hex]
        · exact FS.lookup_rename_to _ _ _ _ hc
        · exact FS.lookup_rename_from _ _ _ _ hc hne

/-- Witness for C3 at a concrete stream and filesystem, exercising the
rename-failure case. -/
theorem exportStream_close_atomic_witness :
    (FS.mk [((ExportStream.mk "out" "model.lwo").tempFile, "DATA"),
        ((ExportStream.mk "out" "model.lwo").targetPath, "OLD")]).lookup
      (ExportStream.mk "out" "model.lwo").tempFile = some "DATA"
    ∧ (false = false → true = true →
        ∃ fs1 : FS,
          (ExportStream.mk "out" "model.lwo").close
              (FS.mk [((ExportStream.mk "out" "model.lwo").tempFile, "DATA"),
                ((ExportStream.mk "out" "model.lwo").targetPath, "OLD")]) false true
            = .ioError ("Could not rename the temporary file: "
                ++ (ExportStream.mk "out" "model.lwo").tempFile) fs1
          ∧ fs1.lookup (ExportStream.mk "out" "model.lwo").tempFile = some "DATA"
          ∧ fs1.lookup (ExportStream.mk "out" "model.lwo").targetPath = none) :=
  ⟨rfl,
    (exportStream_close_atomic (ExportStream.mk "out" "model.lwo")
      (FS.mk [((ExportStream.mk "out" "model.lwo").tempFile, "DATA"),
        ((ExportStream.mk "out" "model.lwo").targetPath, "OLD")]) "DATA"
      false true rfl).2.1⟩
